import Mathlib

/-!
# borges: repository identity resolution (common.go)

A shallow embedding of `getUniqueEndpoints` and `RepositoryID` from `common.go`,
together with an in-memory model of the persistence port they talk to, and a model
of the contract that `common.go` documents for the `JobIter` interface.

* Go's `map[string]bool`, used by `getUniqueEndpoints` as a set, is the list of its
  keys in insertion order; the order in which `range` visits a map is not fixed by
  the language, so it is a parameter (`MapOrder`) of every function that ranges
  over a map.
* `*bool` is `Option Bool`; `uuid.UUID` is a natural number, `uuid.Nil` is `0`.
* `(uuid.UUID, error)` is a pair of the identifier and an optional error.
* The store is explicit state, threaded through every operation.
-/

namespace Borges

/-! ## Data model -/

/-- The type `uuid.UUID`: an opaque identifier. No arithmetic is done on it. -/
abbrev UUID := Nat

/-- The value `uuid.Nil`. -/
def uuidNil : UUID := 0

/-- A Go `error` value returned by the persistence layer. -/
structure Error where
  msg : String
deriving DecidableEq, Repr

/-- The fields of `model.Repository` that `RepositoryID` reads or writes. -/
structure Repository where
  ID : UUID
  Endpoints : List String
  IsFork : Option Bool
deriving DecidableEq, Repr

/-- The columns of `model.Schema.Repository` corresponding to `Repository`. -/
inductive SchemaField where
  | ID
  | Endpoints
  | IsFork
deriving DecidableEq, Repr

/-! ## Go maps used as sets -/

/-- The order in which `range` enumerates the keys of a map: some rearrangement of
the keys, chosen by the runtime. -/
structure MapOrder where
  enum : List String → List String
  perm : ∀ l, (enum l).Perm l

/-- The runtime that happens to enumerate keys in insertion order. -/
def MapOrder.insertion : MapOrder := ⟨id, fun l => List.Perm.refl l⟩

/-- The runtime that happens to enumerate keys in reverse insertion order. -/
def MapOrder.reversed : MapOrder := ⟨List.reverse, fun l => List.reverse_perm l⟩

/-- The assignment `m[e] = true` on a `map[string]bool` whose values are all `true`:
the key list grows by `e` unless `e` is already a key. -/
def mapPut (m : List String) (e : String) : List String :=
  if e ∈ m then m else m ++ [e]

/-! ## getUniqueEndpoints (common.go, lines 92-120) -/

/-- The first loop: both `actualSet` and `outputSet` receive every string of `re`. -/
def keysOf (re : List String) : List String :=
  re.foldl mapPut []

/-- The second loop: `eEq` counts the entries of `ne` that are keys of `actualSet`,
and every entry of `ne` is put into `outputSet`. -/
def mergeLoop (actualSet : List String) (ne : List String)
    (acc : Nat × List String) : Nat × List String :=
  ne.foldl
    (fun st e => ((if e ∈ actualSet then st.1 + 1 else st.1), mapPut st.2 e))
    acc

/-- The function `getUniqueEndpoints(re, ne)`: returns `(nil, false)` when `eEq`
equals `len(outputSet)`, and otherwise the keys of `outputSet`, in the order the
runtime enumerates them, together with `true`. -/
def getUniqueEndpoints (o : MapOrder) (re ne : List String) : List String × Bool :=
  let actualSet := keysOf re
  let outputSet := keysOf re
  let st := mergeLoop actualSet ne (0, outputSet)
  let eEq := st.1
  let outputSet := st.2
  if eEq = outputSet.length then
    ([], false)
  else
    (o.enum outputSet, true)

/-! ### Quantities of `getUniqueEndpoints`, named for the lemmas below -/

/-- The number of entries of `ne` (with repetition) that occur in `re`: the final
value of `eEq`. -/
def hits (re ne : List String) : Nat :=
  ne.countP (fun e => decide (e ∈ re))

/-- The keys of `outputSet` after both loops. -/
def unionKeys (re ne : List String) : List String :=
  ne.foldl mapPut (keysOf re)

/-! ## The persistence port -/

/-- An operation issued against the store, as recorded in the store's log. -/
inductive StoreOp where
  | Find (q : List (Option String))
  | All
  | Save (r : Repository)
  | Update (r : Repository) (fields : List SchemaField)
deriving DecidableEq, Repr

/-- Modelled from the spec: the `model.RepositoryStore` behind the persistence port
(`findByEndpointOverlap`, `insert`, `updateFields`), which lives in another package.
The store holds the persisted rows, the outcomes scheduled for the operations to
come (`some e` makes the next operation fail with `e`; an exhausted schedule means
success), and the log of the operations issued so far. -/
structure RepositoryStore where
  rows : List Repository
  faults : List (Option Error)
  log : List StoreOp
deriving DecidableEq, Repr

/-- A store with the given rows, no scheduled failure and an empty log. -/
def RepositoryStore.ofRows (rows : List Repository) : RepositoryStore :=
  ⟨rows, [], []⟩

/-- The empty store. -/
def RepositoryStore.empty : RepositoryStore := RepositoryStore.ofRows []

/-- Records `op` in the log and consumes the outcome scheduled for it. -/
def RepositoryStore.issue (s : RepositoryStore) (op : StoreOp) :
    Option Error × RepositoryStore :=
  match s.faults with
  | [] => (none, { s with log := s.log ++ [op] })
  | f :: fs => (f, { s with faults := fs, log := s.log ++ [op] })

/-- Modelled from the spec: the array-overlap predicate `kallax.ArrayOverlap` on
the endpoints column: a row matches when one of its endpoints is among the query
values; a nil value equals no endpoint. -/
def arrayOverlap (q : List (Option String)) (r : Repository) : Bool :=
  r.Endpoints.any (fun e => decide (some e ∈ q))

/-- Modelled from the spec: `storer.Find(query)`, the overlap query; the matching
rows are returned in the order in which the store holds them. -/
def RepositoryStore.Find (s : RepositoryStore) (q : List (Option String)) :
    Except Error (List Repository) × RepositoryStore :=
  match s.issue (StoreOp.Find q) with
  | (some err, s1) => (Except.error err, s1)
  | (none, s1) => (Except.ok (s.rows.filter (arrayOverlap q)), s1)

/-- Modelled from the spec: `rs.All()`, which reads every row of a result set. -/
def RepositoryStore.All (s : RepositoryStore) (rs : List Repository) :
    Except Error (List Repository) × RepositoryStore :=
  match s.issue StoreOp.All with
  | (some err, s1) => (Except.error err, s1)
  | (none, s1) => (Except.ok rs, s1)

/-- Modelled from the spec: `storer.Save(r)` for a record that is not persisted yet
(`insert`): the row is added to the store. -/
def RepositoryStore.Save (s : RepositoryStore) (r : Repository) :
    Option Error × RepositoryStore :=
  match s.issue (StoreOp.Save r) with
  | (some err, s1) => (some err, s1)
  | (none, s1) => (none, { s1 with rows := s1.rows ++ [r] })

/-- The row `row` with the columns listed in `fields` overwritten from `src`. -/
def applyFields (fields : List SchemaField) (src row : Repository) : Repository :=
  { ID := if SchemaField.ID ∈ fields then src.ID else row.ID
    Endpoints := if SchemaField.Endpoints ∈ fields then src.Endpoints else row.Endpoints
    IsFork := if SchemaField.IsFork ∈ fields then src.IsFork else row.IsFork }

/-- Modelled from the spec: `storer.Update(r, fields...)` (`updateFields`): the
listed columns of the row identified by `r.ID` are overwritten from `r`. -/
def RepositoryStore.Update (s : RepositoryStore) (r : Repository)
    (fields : List SchemaField) : Option Error × RepositoryStore :=
  match s.issue (StoreOp.Update r fields) with
  | (some err, s1) => (some err, s1)
  | (none, s1) =>
    (none, { s1 with
      rows := s1.rows.map (fun row => if row.ID = r.ID then applyFields fields r row else row) })

/-! ## RepositoryID (common.go, lines 39-90) -/

/-- Lines 40-43: `q` starts as `len(endpoints)` nil values
(`make([]interface{}, len(endpoints))`) and every endpoint is appended to it. -/
def queryValues (endpoints : List String) : List (Option String) :=
  endpoints.foldl (fun q ep => q ++ [some ep]) (List.replicate endpoints.length none)

/-- The function `RepositoryID(endpoints, isFork, storer)`. `newID` is the
identifier that `model.NewRepository()` draws for a new record; it is used only on
the path that creates one. The result is the returned pair and the store after
the call. -/
def RepositoryID (o : MapOrder) (newID : UUID) (endpoints : List String)
    (isFork : Option Bool) (storer : RepositoryStore) :
    (UUID × Option Error) × RepositoryStore :=
  let q := queryValues endpoints
  match storer.Find q with
  | (Except.error err, s1) => ((uuidNil, some err), s1)
  | (Except.ok rs, s1) =>
    match s1.All rs with
    | (Except.error err, s2) => ((uuidNil, some err), s2)
    | (Except.ok repositories, s2) =>
      match repositories with
      | [] =>
        let r : Repository := { ID := newID, Endpoints := endpoints, IsFork := isFork }
        match s2.Save r with
        | (some err, s3) => ((uuidNil, some err), s3)
        | (none, s3) => ((r.ID, none), s3)
      | r0 :: _ =>
        let res := getUniqueEndpoints o r0.Endpoints endpoints
        let allEndpoints := res.1
        let update := res.2
        if update then
          let r : Repository := { r0 with Endpoints := allEndpoints }
          match s2.Update r [SchemaField.Endpoints] with
          | (some err, s3) => ((uuidNil, some err), s3)
          | (none, s3) => ((r.ID, none), s3)
        else
          ((r0.ID, none), s2)

/-! ## Job and JobIter (common.go, lines 13-35) -/

/-- The struct `Job`: a reference to a repository. -/
structure Job where
  RepositoryID : UUID
deriving DecidableEq, Repr

/-- The error values that `Next` returns: `io.EOF`, an error of kind `ErrWaitForJobs`
and an error of kind `ErrAlreadyStopped`. -/
inductive IterError where
  | EOF
  | WaitForJobs
  | AlreadyStopped
deriving DecidableEq, Repr

/-- Modelled from the spec: the state behind a `JobIter`; `common.go` declares the
interface only and holds none of its implementations. `pending` are the jobs the
source has ready, `done` says that the source will never produce another job, and
`closed` says that `Close` has been called. -/
structure JobSource where
  pending : List Job
  done : Bool
  closed : Bool
deriving DecidableEq, Repr

/-- Modelled from the spec: `JobIter.Next`. After `Close` it fails with
`AlreadyStopped`; otherwise it hands out the next pending job, and when none is
pending it returns `io.EOF` if the source is permanently done and an error of kind
`ErrWaitForJobs` if the source may still produce jobs. -/
def JobSource.Next (s : JobSource) : (Option Job × Option IterError) × JobSource :=
  if s.closed then
    ((none, some IterError.AlreadyStopped), s)
  else
    match s.pending with
    | j :: js => ((some j, none), { s with pending := js })
    | [] =>
      if s.done then ((none, some IterError.EOF), s)
      else ((none, some IterError.WaitForJobs), s)

/-- The state of the source after `n` calls of `Next`. -/
def JobSource.afterCalls : Nat → JobSource → JobSource
  | 0, s => s
  | n + 1, s => JobSource.afterCalls n (s.Next).2

/-! ## Lemmas on maps used as sets -/

theorem mem_mapPut (m : List String) (e x : String) :
    x ∈ mapPut m e ↔ x ∈ m ∨ x = e := by
  unfold mapPut
  split
  · constructor
    · intro h; exact Or.inl h
    · rintro (h | h)
      · exact h
      · subst h; assumption
  · simp

theorem nodup_mapPut (m : List String) (e : String) (h : m.Nodup) :
    (mapPut m e).Nodup := by
  unfold mapPut
  split
  · exact h
  · rename_i hne
    rw [List.nodup_append]
    refine ⟨h, List.nodup_singleton e, ?_⟩
    intro a ha hb
    simp only [List.mem_singleton] at hb
    subst hb
    exact hne ha

theorem mem_foldl_mapPut (l m : List String) (x : String) :
    x ∈ l.foldl mapPut m ↔ x ∈ m ∨ x ∈ l := by
  induction l generalizing m with
  | nil => simp
  | cons e l ih =>
    rw [List.foldl_cons, ih, mem_mapPut, List.mem_cons]
    constructor
    · rintro ((h | h) | h)
      · exact Or.inl h
      · exact Or.inr (Or.inl h)
      · exact Or.inr (Or.inr h)
    · rintro (h | h | h)
      · exact Or.inl (Or.inl h)
      · exact Or.inl (Or.inr h)
      · exact Or.inr h

theorem nodup_foldl_mapPut (l m : List String) (h : m.Nodup) :
    (l.foldl mapPut m).Nodup := by
  induction l generalizing m with
  | nil => simpa using h
  | cons e l ih =>
    rw [List.foldl_cons]
    exact ih _ (nodup_mapPut m e h)

theorem mem_keysOf (re : List String) (x : String) : x ∈ keysOf re ↔ x ∈ re := by
  unfold keysOf
  rw [mem_foldl_mapPut]
  simp

theorem nodup_keysOf (re : List String) : (keysOf re).Nodup :=
  nodup_foldl_mapPut re [] List.nodup_nil

theorem mergeLoop_fst (a ne : List String) (acc : Nat × List String) :
    (mergeLoop a ne acc).1 = acc.1 + ne.countP (fun e => decide (e ∈ a)) := by
  unfold mergeLoop
  induction ne generalizing acc with
  | nil => simp
  | cons e ne ih =>
    rw [List.foldl_cons, ih, List.countP_cons]
    by_cases h : e ∈ a
    · simp [h]; omega
    · simp [h]

theorem mergeLoop_snd (a ne : List String) (acc : Nat × List String) :
    (mergeLoop a ne acc).2 = ne.foldl mapPut acc.2 := by
  unfold mergeLoop
  induction ne generalizing acc with
  | nil => simp
  | cons e ne ih => rw [List.foldl_cons, ih, List.foldl_cons]

theorem mem_unionKeys (re ne : List String) (x : String) :
    x ∈ unionKeys re ne ↔ x ∈ re ∨ x ∈ ne := by
  unfold unionKeys
  rw [mem_foldl_mapPut, mem_keysOf]

theorem nodup_unionKeys (re ne : List String) : (unionKeys re ne).Nodup :=
  nodup_foldl_mapPut ne _ (nodup_keysOf re)

theorem length_unionKeys (re ne : List String) :
    (unionKeys re ne).length = (re.toFinset ∪ ne.toFinset).card := by
  rw [← List.toFinset_card_of_nodup (nodup_unionKeys re ne)]
  congr 1
  ext x
  simp [mem_unionKeys]

theorem getUniqueEndpoints_eq (o : MapOrder) (re ne : List String) :
    getUniqueEndpoints o re ne =
      if hits re ne = (unionKeys re ne).length then ([], false)
      else (o.enum (unionKeys re ne), true) := by
  unfold getUniqueEndpoints
  simp only [mergeLoop_fst, mergeLoop_snd, hits, unionKeys, Nat.zero_add]
  have : (fun e => decide (e ∈ keysOf re)) = (fun e => decide (e ∈ re)) := by
    funext e
    simp [mem_keysOf]
  rw [this]

theorem getUniqueEndpoints_changed_iff (o : MapOrder) (re ne : List String) :
    (getUniqueEndpoints o re ne).2 = true ↔
      hits re ne ≠ (re.toFinset ∪ ne.toFinset).card := by
  rw [getUniqueEndpoints_eq, ← length_unionKeys]
  split <;> simp_all

theorem getUniqueEndpoints_unchanged_iff (o : MapOrder) (re ne : List String) :
    (getUniqueEndpoints o re ne).2 = false ↔
      hits re ne = (re.toFinset ∪ ne.toFinset).card := by
  rw [getUniqueEndpoints_eq, ← length_unionKeys]
  split <;> simp_all

theorem mem_getUniqueEndpoints (o : MapOrder) (re ne : List String)
    (h : (getUniqueEndpoints o re ne).2 = true) (x : String) :
    x ∈ (getUniqueEndpoints o re ne).1 ↔ x ∈ re ∨ x ∈ ne := by
  rw [getUniqueEndpoints_eq] at h ⊢
  split at h
  · simp at h
  · rename_i hne
    rw [if_neg hne]
    rw [(o.perm _).mem_iff, mem_unionKeys]

theorem nodup_getUniqueEndpoints (o : MapOrder) (re ne : List String) :
    (getUniqueEndpoints o re ne).1.Nodup := by
  rw [getUniqueEndpoints_eq]
  split
  · exact List.nodup_nil
  · exact (o.perm _).nodup_iff.mpr (nodup_unionKeys re ne)

/-! ## Lemmas on the store and on RepositoryID -/

theorem queryValues_eq (endpoints : List String) :
    queryValues endpoints =
      List.replicate endpoints.length none ++ endpoints.map some := by
  unfold queryValues
  generalize List.replicate endpoints.length (none : Option String) = init
  induction endpoints generalizing init with
  | nil => simp
  | cons e l ih => rw [List.foldl_cons, ih]; simp

theorem some_mem_queryValues (endpoints : List String) (e : String) :
    some e ∈ queryValues endpoints ↔ e ∈ endpoints := by
  rw [queryValues_eq]
  simp [List.mem_replicate]

theorem arrayOverlap_queryValues (endpoints : List String) (r : Repository) :
    arrayOverlap (queryValues endpoints) r = true ↔
      ∃ e ∈ r.Endpoints, e ∈ endpoints := by
  unfold arrayOverlap
  simp [some_mem_queryValues]

theorem issue_eq (s : RepositoryStore) (op : StoreOp) :
    s.issue op = (s.faults.headD none, ⟨s.rows, s.faults.tail, s.log ++ [op]⟩) := by
  rcases s with ⟨rows, faults, log⟩
  cases faults <;> rfl

theorem Find_eq (s : RepositoryStore) (q : List (Option String)) :
    s.Find q =
      ((match s.faults.headD none with
        | some err => Except.error err
        | none => Except.ok (s.rows.filter (arrayOverlap q))),
       ⟨s.rows, s.faults.tail, s.log ++ [StoreOp.Find q]⟩) := by
  unfold RepositoryStore.Find
  rw [issue_eq]
  cases s.faults.headD none <;> rfl

theorem All_eq (s : RepositoryStore) (rs : List Repository) :
    s.All rs =
      ((match s.faults.headD none with
        | some err => Except.error err
        | none => Except.ok rs),
       ⟨s.rows, s.faults.tail, s.log ++ [StoreOp.All]⟩) := by
  unfold RepositoryStore.All
  rw [issue_eq]
  cases s.faults.headD none <;> rfl

theorem Save_eq (s : RepositoryStore) (r : Repository) :
    s.Save r =
      (s.faults.headD none,
       ⟨(match s.faults.headD none with
          | some _ => s.rows
          | none => s.rows ++ [r]),
        s.faults.tail, s.log ++ [StoreOp.Save r]⟩) := by
  unfold RepositoryStore.Save
  rw [issue_eq]
  cases s.faults.headD none <;> rfl

theorem Update_eq (s : RepositoryStore) (r : Repository) (fields : List SchemaField) :
    s.Update r fields =
      (s.faults.headD none,
       ⟨(match s.faults.headD none with
          | some _ => s.rows
          | none => s.rows.map
              (fun row => if row.ID = r.ID then applyFields fields r row else row)),
        s.faults.tail, s.log ++ [StoreOp.Update r fields]⟩) := by
  unfold RepositoryStore.Update
  rw [issue_eq]
  cases s.faults.headD none <;> rfl

theorem Find_ok (s : RepositoryStore) (q : List (Option String)) (rs : List Repository)
    (t : RepositoryStore) (h : s.Find q = (Except.ok rs, t)) :
    rs = s.rows.filter (arrayOverlap q) ∧
      t = ⟨s.rows, s.faults.tail, s.log ++ [StoreOp.Find q]⟩ := by
  rw [Find_eq] at h
  cases hd : s.faults.headD none <;> rw [hd] at h <;> simp at h
  exact ⟨h.1.symm, h.2.symm⟩

theorem All_ok (s : RepositoryStore) (rs l : List Repository)
    (t : RepositoryStore) (h : s.All rs = (Except.ok l, t)) :
    l = rs ∧ t = ⟨s.rows, s.faults.tail, s.log ++ [StoreOp.All]⟩ := by
  rw [All_eq] at h
  cases hd : s.faults.headD none <;> rw [hd] at h <;> simp at h
  exact ⟨h.1.symm, h.2.symm⟩

theorem Save_ok (s : RepositoryStore) (r : Repository) (t : RepositoryStore)
    (h : s.Save r = (none, t)) :
    t = ⟨s.rows ++ [r], s.faults.tail, s.log ++ [StoreOp.Save r]⟩ := by
  rw [Save_eq] at h
  cases hd : s.faults.headD none <;> rw [hd] at h <;> simp at h
  exact h.symm

/-- An update of the endpoints column alone leaves a row's identifier and fork flag. -/
theorem applyFields_endpoints (src row : Repository) :
    applyFields [SchemaField.Endpoints] src row = { row with Endpoints := src.Endpoints } := by
  simp [applyFields]

theorem Update_endpoints_proj (s : RepositoryStore) (r : Repository) :
    (s.Update r [SchemaField.Endpoints]).2.rows.map (fun x => (x.ID, x.IsFork)) =
      s.rows.map (fun x => (x.ID, x.IsFork)) := by
  rw [Update_eq]
  cases s.faults.headD none
  · simp only [List.map_map]
    apply List.map_congr_left
    intro row _
    simp only [Function.comp, applyFields_endpoints]
    split <;> rfl
  · rfl


theorem headD_of_all_none (l : List (Option Error)) (h : ∀ f ∈ l, f = none) :
    l.headD none = none := by
  cases l with
  | nil => rfl
  | cons a l => exact h a (List.mem_cons_self a l)

theorem tail_all_none (l : List (Option Error)) (h : ∀ f ∈ l, f = none) :
    ∀ f ∈ l.tail, f = none :=
  fun f hf => h f (List.mem_of_mem_tail hf)

theorem RepositoryID_create (o : MapOrder) (newID : UUID) (endpoints : List String)
    (isFork : Option Bool) (st : RepositoryStore)
    (hok : ∀ f ∈ st.faults, f = none)
    (hq : st.rows.filter (arrayOverlap (queryValues endpoints)) = []) :
    RepositoryID o newID endpoints isFork st =
      ((newID, none),
        ⟨st.rows ++ [⟨newID, endpoints, isFork⟩], st.faults.tail.tail.tail,
          st.log ++ [StoreOp.Find (queryValues endpoints), StoreOp.All,
            StoreOp.Save ⟨newID, endpoints, isFork⟩]⟩) := by
  have h1 := headD_of_all_none _ hok
  have h2 := headD_of_all_none _ (tail_all_none _ hok)
  have h3 := headD_of_all_none _ (tail_all_none _ (tail_all_none _ hok))
  simp only [RepositoryID, Find_eq, h1, All_eq, h2, hq, Save_eq, h3, List.append_assoc,
    List.singleton_append, List.cons_append, List.nil_append]

theorem RepositoryID_update (o : MapOrder) (newID : UUID) (endpoints : List String)
    (isFork : Option Bool) (st : RepositoryStore) (r0 : Repository) (rest : List Repository)
    (hok : ∀ f ∈ st.faults, f = none)
    (hq : st.rows.filter (arrayOverlap (queryValues endpoints)) = r0 :: rest)
    (hu : (getUniqueEndpoints o r0.Endpoints endpoints).2 = true) :
    RepositoryID o newID endpoints isFork st =
      ((r0.ID, none),
        ⟨st.rows.map (fun row =>
            if row.ID = r0.ID then
              { row with Endpoints := (getUniqueEndpoints o r0.Endpoints endpoints).1 }
            else row),
          st.faults.tail.tail.tail,
          st.log ++ [StoreOp.Find (queryValues endpoints), StoreOp.All,
            StoreOp.Update
              { r0 with Endpoints := (getUniqueEndpoints o r0.Endpoints endpoints).1 }
              [SchemaField.Endpoints]]⟩) := by
  have h1 := headD_of_all_none _ hok
  have h2 := headD_of_all_none _ (tail_all_none _ hok)
  have h3 := headD_of_all_none _ (tail_all_none _ (tail_all_none _ hok))
  simp only [RepositoryID, Find_eq, h1, All_eq, h2, hq, Update_eq, h3, hu, if_true,
    applyFields_endpoints, List.append_assoc, List.singleton_append, List.cons_append,
    List.nil_append]

theorem RepositoryID_keep (o : MapOrder) (newID : UUID) (endpoints : List String)
    (isFork : Option Bool) (st : RepositoryStore) (r0 : Repository) (rest : List Repository)
    (hok : ∀ f ∈ st.faults, f = none)
    (hq : st.rows.filter (arrayOverlap (queryValues endpoints)) = r0 :: rest)
    (hu : (getUniqueEndpoints o r0.Endpoints endpoints).2 = false) :
    RepositoryID o newID endpoints isFork st =
      ((r0.ID, none),
        ⟨st.rows, st.faults.tail.tail,
          st.log ++ [StoreOp.Find (queryValues endpoints), StoreOp.All]⟩) := by
  have h1 := headD_of_all_none _ hok
  have h2 := headD_of_all_none _ (tail_all_none _ hok)
  simp only [RepositoryID, Find_eq, h1, All_eq, h2, hq, hu, Bool.false_eq_true, if_false,
    List.append_assoc, List.singleton_append, List.cons_append, List.nil_append]

/-- With no failure scheduled and a non-empty overlap, the call returns the first
match, keeps the identifiers of all rows, and touches only rows with that identifier. -/
theorem RepositoryID_match (o : MapOrder) (newID : UUID) (endpoints : List String)
    (isFork : Option Bool) (st : RepositoryStore) (r0 : Repository) (rest : List Repository)
    (hok : ∀ f ∈ st.faults, f = none)
    (hq : st.rows.filter (arrayOverlap (queryValues endpoints)) = r0 :: rest) :
    (RepositoryID o newID endpoints isFork st).1 = (r0.ID, none) ∧
    (RepositoryID o newID endpoints isFork st).2.rows.map (fun r => r.ID) =
      st.rows.map (fun r => r.ID) ∧
    (∀ f ∈ (RepositoryID o newID endpoints isFork st).2.faults, f = none) ∧
    (∀ r ∈ (RepositoryID o newID endpoints isFork st).2.rows, r.ID = r0.ID ∨ r ∈ st.rows) ∧
    (∃ r ∈ (RepositoryID o newID endpoints isFork st).2.rows,
      r.ID = r0.ID ∧ ∀ e ∈ r0.Endpoints, e ∈ r.Endpoints) := by
  have hr0 : r0 ∈ st.rows := by
    have : r0 ∈ st.rows.filter (arrayOverlap (queryValues endpoints)) := by
      rw [hq]; exact List.mem_cons_self _ _
    exact (List.mem_filter.mp this).1
  by_cases hu : (getUniqueEndpoints o r0.Endpoints endpoints).2 = true
  · rw [RepositoryID_update o newID endpoints isFork st r0 rest hok hq hu]
    refine ⟨rfl, ?_, ?_, ?_, ?_⟩
    · simp only [List.map_map]
      apply List.map_congr_left
      intro row _
      simp only [Function.comp]
      split <;> rfl
    · exact tail_all_none _ (tail_all_none _ (tail_all_none _ hok))
    · intro r hr
      simp only [List.mem_map] at hr
      obtain ⟨row, hrow, rfl⟩ := hr
      by_cases hid : row.ID = r0.ID
      · left; rw [if_pos hid]; exact hid
      · right; rw [if_neg hid]; exact hrow
    · refine ⟨_, List.mem_map.mpr ⟨r0, hr0, rfl⟩, ?_, ?_⟩
      · simp
      · intro e he
        simp only [if_true]
        exact (mem_getUniqueEndpoints o _ _ hu e).mpr (Or.inl he)
  · have hu2 : (getUniqueEndpoints o r0.Endpoints endpoints).2 = false := by
      simpa using hu
    rw [RepositoryID_keep o newID endpoints isFork st r0 rest hok hq hu2]
    refine ⟨rfl, rfl, ?_, ?_, ?_⟩
    · exact tail_all_none _ (tail_all_none _ hok)
    · intro r hr; exact Or.inr hr
    · exact ⟨r0, hr0, rfl, fun e he => he⟩

/-! ## Failing operations, and the rows after a call -/

theorem Find_err (s : RepositoryStore) (q : List (Option String)) (e : Error)
    (t : RepositoryStore) (h : s.Find q = (Except.error e, t)) :
    t = ⟨s.rows, s.faults.tail, s.log ++ [StoreOp.Find q]⟩ := by
  rw [Find_eq] at h
  exact (congrArg Prod.snd h).symm

theorem All_err (s : RepositoryStore) (rs : List Repository) (e : Error)
    (t : RepositoryStore) (h : s.All rs = (Except.error e, t)) :
    t = ⟨s.rows, s.faults.tail, s.log ++ [StoreOp.All]⟩ := by
  rw [All_eq] at h
  exact (congrArg Prod.snd h).symm

theorem Save_err (s : RepositoryStore) (r : Repository) (e : Error)
    (t : RepositoryStore) (h : s.Save r = (some e, t)) :
    t = ⟨s.rows, s.faults.tail, s.log ++ [StoreOp.Save r]⟩ := by
  rw [Save_eq] at h
  cases hd : s.faults.headD none <;> rw [hd] at h <;> simp at h
  exact h.2.symm

theorem Update_err (s : RepositoryStore) (r : Repository) (fields : List SchemaField)
    (e : Error) (t : RepositoryStore) (h : s.Update r fields = (some e, t)) :
    t = ⟨s.rows, s.faults.tail, s.log ++ [StoreOp.Update r fields]⟩ := by
  rw [Update_eq] at h
  cases hd : s.faults.headD none <;> rw [hd] at h <;> simp at h
  exact h.2.symm

/-- The rows after a call, whatever fails: unchanged, or one record appended on the
path without a match, or the endpoints of the rows carrying the identifier of the
first match replaced by the merged list. -/
theorem RepositoryID_rows (o : MapOrder) (newID : UUID) (endpoints : List String)
    (isFork : Option Bool) (st : RepositoryStore) :
    (RepositoryID o newID endpoints isFork st).2.rows = st.rows ∨
    (st.rows.filter (arrayOverlap (queryValues endpoints)) = [] ∧
      (RepositoryID o newID endpoints isFork st).2.rows =
        st.rows ++ [⟨newID, endpoints, isFork⟩]) ∨
    (∃ r0 rest, st.rows.filter (arrayOverlap (queryValues endpoints)) = r0 :: rest ∧
      (getUniqueEndpoints o r0.Endpoints endpoints).2 = true ∧
      (RepositoryID o newID endpoints isFork st).2.rows =
        st.rows.map (fun row =>
          if row.ID = r0.ID then
            { row with Endpoints := (getUniqueEndpoints o r0.Endpoints endpoints).1 }
          else row)) := by
  simp only [RepositoryID, Find_eq]
  cases h1 : st.faults.headD none with
  | some e => left; rfl
  | none =>
    simp only [All_eq]
    cases h2 : st.faults.tail.headD none with
    | some e => left; rfl
    | none =>
      cases hq : st.rows.filter (arrayOverlap (queryValues endpoints)) with
      | nil =>
        simp only [Save_eq]
        cases h3 : st.faults.tail.tail.headD none with
        | some e => left; rfl
        | none => right; left; exact ⟨trivial, rfl⟩
      | cons r0 rest =>
        simp only
        by_cases hu : (getUniqueEndpoints o r0.Endpoints endpoints).2 = true
        · rw [if_pos hu]
          simp only [Update_eq, applyFields_endpoints]
          cases h3 : st.faults.tail.tail.headD none with
          | some e => left; rfl
          | none => right; right; exact ⟨r0, rest, rfl, hu, rfl⟩
        · rw [if_neg hu]
          left; rfl

theorem hits_of_nodup (re ne : List String) (hne : ne.Nodup) :
    hits re ne = (ne.toFinset ∩ re.toFinset).card := by
  unfold hits
  rw [List.countP_eq_length_filter, ← List.toFinset_card_of_nodup (hne.filter _)]
  congr 1
  ext x
  simp

/-! ## The claims -/

/-- C1: `getUniqueEndpoints(current, incoming)` is claimed to report `changed = false`
exactly when every string of `incoming` is a string of `current`. The code compares
`eEq` with `len(outputSet)` instead: with `current = ["a","b"]` and
`incoming = ["a"]` it reports `changed = true` although `incoming` is contained in
`current`, and with `current = ["a"]` and `incoming = ["a","b","a"]` it reports
`changed = false` although `"b"` is not in `current`, under every map order. -/
theorem getUniqueEndpoints_changed_differs_from_subset :
    (∀ o : MapOrder, (getUniqueEndpoints o ["a", "b"] ["a"]).2 = true) ∧
    (∀ e ∈ ["a"], e ∈ ["a", "b"]) ∧
    (∀ o : MapOrder, (getUniqueEndpoints o ["a"] ["a", "b", "a"]).2 = false) ∧
    ¬ (∀ e ∈ ["a", "b", "a"], e ∈ ["a"]) :=
  ⟨fun _ => rfl, by decide, fun _ => rfl, by decide⟩

/-- C2: after a call that returns an identifier without error, the record with that
identifier is claimed to hold every string of the given list. On the store holding
the single record `(1, ["a"])`, the call with `["a","b","a"]` returns identifier `1`
without error, issues no `Update`, and leaves the record with endpoints `["a"]`, so
`"b"` belongs to no record. -/
theorem RepositoryID_repeated_endpoint_loses_alias :
    ∀ (o : MapOrder) (newID : UUID) (isFork : Option Bool),
      RepositoryID o newID ["a", "b", "a"] isFork
          (RepositoryStore.ofRows [⟨1, ["a"], none⟩]) =
        ((1, none),
          ⟨[⟨1, ["a"], none⟩], [],
            [StoreOp.Find [none, none, none, some "a", some "b", some "a"], StoreOp.All]⟩) ∧
      "b" ∈ ["a", "b", "a"] ∧ "b" ∉ ["a"] := by
  intro o newID isFork
  exact ⟨rfl, by decide, by decide⟩

/-- C3: when the overlap query returns no record and `Save` succeeds, `RepositoryID`
returns the new identifier without error, and the rows of the store afterwards are
the rows before followed by the one new record, whose endpoints are the given list
and whose fork flag is the given flag. -/
theorem RepositoryID_no_match_creates_record (o : MapOrder) (newID : UUID)
    (endpoints : List String) (isFork : Option Bool) (st s1 s2 s3 : RepositoryStore)
    (rs : List Repository)
    (hFind : st.Find (queryValues endpoints) = (Except.ok rs, s1))
    (hAll : s1.All rs = (Except.ok [], s2))
    (hSave : s2.Save ⟨newID, endpoints, isFork⟩ = (none, s3)) :
    RepositoryID o newID endpoints isFork st = ((newID, none), s3) ∧
    s3.rows = st.rows ++ [⟨newID, endpoints, isFork⟩] := by
  constructor
  · simp only [RepositoryID, hFind, hAll, hSave]
  · obtain ⟨_, h1⟩ := Find_ok _ _ _ _ hFind
    obtain ⟨_, h2⟩ := All_ok _ _ _ _ hAll
    have h3 := Save_ok _ _ _ hSave
    subst h1 h2 h3
    rfl

/-- Resolving `["a","b"]` against the empty store leaves exactly one record, with
endpoints `["a","b"]`. -/
theorem RepositoryID_no_match_creates_record_witness :
    RepositoryStore.empty.Find (queryValues ["a", "b"]) =
      (Except.ok [], ⟨[], [], [StoreOp.Find [none, none, some "a", some "b"]]⟩) ∧
    (⟨[], [], [StoreOp.Find [none, none, some "a", some "b"]]⟩ : RepositoryStore).All [] =
      (Except.ok [],
        ⟨[], [], [StoreOp.Find [none, none, some "a", some "b"], StoreOp.All]⟩) ∧
    (⟨[], [], [StoreOp.Find [none, none, some "a", some "b"], StoreOp.All]⟩ :
        RepositoryStore).Save ⟨7, ["a", "b"], some false⟩ =
      (none,
        ⟨[⟨7, ["a", "b"], some false⟩], [],
          [StoreOp.Find [none, none, some "a", some "b"], StoreOp.All,
            StoreOp.Save ⟨7, ["a", "b"], some false⟩]⟩) ∧
    (RepositoryID MapOrder.insertion 7 ["a", "b"] (some false) RepositoryStore.empty =
      ((7, none),
        ⟨[⟨7, ["a", "b"], some false⟩], [],
          [StoreOp.Find [none, none, some "a", some "b"], StoreOp.All,
            StoreOp.Save ⟨7, ["a", "b"], some false⟩]⟩) ∧
     (⟨[⟨7, ["a", "b"], some false⟩], [],
          [StoreOp.Find [none, none, some "a", some "b"], StoreOp.All,
            StoreOp.Save ⟨7, ["a", "b"], some false⟩]⟩ : RepositoryStore).rows =
      RepositoryStore.empty.rows ++ [⟨7, ["a", "b"], some false⟩]) :=
  ⟨rfl, rfl, rfl,
    RepositoryID_no_match_creates_record MapOrder.insertion 7 ["a", "b"] (some false)
      RepositoryStore.empty
      ⟨[], [], [StoreOp.Find [none, none, some "a", some "b"]]⟩
      ⟨[], [], [StoreOp.Find [none, none, some "a", some "b"], StoreOp.All]⟩
      _ [] rfl rfl rfl⟩

/-- C4: when the overlap query returns one or more records and the `Update`, if one
is issued, succeeds, `RepositoryID` returns the identifier of the first returned
record and no error, however many records matched and whether or not the record's
endpoints are updated. -/
theorem RepositoryID_match_returns_first (o : MapOrder) (newID : UUID)
    (endpoints : List String) (isFork : Option Bool) (st s1 s2 : RepositoryStore)
    (rs rest : List Repository) (r0 : Repository)
    (hFind : st.Find (queryValues endpoints) = (Except.ok rs, s1))
    (hAll : s1.All rs = (Except.ok (r0 :: rest), s2))
    (hUpd : (getUniqueEndpoints o r0.Endpoints endpoints).2 = true →
      (s2.Update { r0 with Endpoints := (getUniqueEndpoints o r0.Endpoints endpoints).1 }
        [SchemaField.Endpoints]).1 = none) :
    (RepositoryID o newID endpoints isFork st).1 = (r0.ID, none) := by
  simp only [RepositoryID, hFind, hAll]
  by_cases hu : (getUniqueEndpoints o r0.Endpoints endpoints).2 = true
  · have h := hUpd hu
    rw [if_pos hu]
    generalize s2.Update _ _ = p at h ⊢
    rcases p with ⟨e, s3⟩
    simp only at h
    subst h
    rfl
  · rw [if_neg hu]

/-- Two records match `["a","b"]`; the call returns the identifier of the first. -/
theorem RepositoryID_match_returns_first_witness :
    (RepositoryStore.ofRows [⟨1, ["a"], none⟩, ⟨2, ["b"], some true⟩]).Find
        (queryValues ["a", "b"]) =
      (Except.ok [⟨1, ["a"], none⟩, ⟨2, ["b"], some true⟩],
        ⟨[⟨1, ["a"], none⟩, ⟨2, ["b"], some true⟩], [],
          [StoreOp.Find (queryValues ["a", "b"])]⟩) ∧
    (⟨[⟨1, ["a"], none⟩, ⟨2, ["b"], some true⟩], [],
          [StoreOp.Find (queryValues ["a", "b"])]⟩ : RepositoryStore).All
        [⟨1, ["a"], none⟩, ⟨2, ["b"], some true⟩] =
      (Except.ok [⟨1, ["a"], none⟩, ⟨2, ["b"], some true⟩],
        ⟨[⟨1, ["a"], none⟩, ⟨2, ["b"], some true⟩], [],
          [StoreOp.Find (queryValues ["a", "b"]), StoreOp.All]⟩) ∧
    (RepositoryID MapOrder.insertion 9 ["a", "b"] none
      (RepositoryStore.ofRows [⟨1, ["a"], none⟩, ⟨2, ["b"], some true⟩])).1 = (1, none) :=
  ⟨rfl, rfl,
    RepositoryID_match_returns_first MapOrder.insertion 9 ["a", "b"] none
      (RepositoryStore.ofRows [⟨1, ["a"], none⟩, ⟨2, ["b"], some true⟩])
      ⟨[⟨1, ["a"], none⟩, ⟨2, ["b"], some true⟩], [],
        [StoreOp.Find (queryValues ["a", "b"])]⟩
      ⟨[⟨1, ["a"], none⟩, ⟨2, ["b"], some true⟩], [],
        [StoreOp.Find (queryValues ["a", "b"]), StoreOp.All]⟩
      [⟨1, ["a"], none⟩, ⟨2, ["b"], some true⟩] [⟨2, ["b"], some true⟩] ⟨1, ["a"], none⟩
      rfl rfl (fun _ => rfl)⟩

/-- C5: resolving `X` against the empty store and then `Y`, where `X` and `Y` share
a string, is claimed to leave one record whose endpoint set is the union of `X` and
`Y`. With `X = ["a"]` and `Y = ["a","b","a"]` both calls return the same identifier
without error, but the single record is left with endpoints `["a"]`: `"b"` is lost. -/
theorem RepositoryID_second_call_loses_alias :
    ∀ (o : MapOrder) (n1 n2 : UUID) (f1 f2 : Option Bool),
      (∃ e, e ∈ ["a"] ∧ e ∈ ["a", "b", "a"]) ∧
      (RepositoryID o n1 ["a"] f1 RepositoryStore.empty).1 = (n1, none) ∧
      (RepositoryID o n2 ["a", "b", "a"] f2
        (RepositoryID o n1 ["a"] f1 RepositoryStore.empty).2).1 = (n1, none) ∧
      (RepositoryID o n2 ["a", "b", "a"] f2
        (RepositoryID o n1 ["a"] f1 RepositoryStore.empty).2).2.rows = [⟨n1, ["a"], f1⟩] ∧
      "b" ∉ ["a"] := by
  intro o n1 n2 f1 f2
  exact ⟨⟨"a", by decide, by decide⟩, rfl, rfl, rfl, by decide⟩

/-- C6: resolving the same list twice is claimed to issue no `Update` the second
time. With the list `["a","a"]` the first call stores a record with endpoints
`["a","a"]`; the second call finds it, counts two hits against a set of one key,
issues an `Update` of the endpoints column and rewrites the stored list to `["a"]`. -/
theorem RepositoryID_same_list_twice_updates :
    ∀ (o : MapOrder) (n1 n2 : UUID) (f1 f2 : Option Bool),
      (RepositoryID o n1 ["a", "a"] f1 RepositoryStore.empty).2.rows =
        [⟨n1, ["a", "a"], f1⟩] ∧
      (RepositoryID o n2 ["a", "a"] f2
        (RepositoryID o n1 ["a", "a"] f1 RepositoryStore.empty).2).2.log =
        (RepositoryID o n1 ["a", "a"] f1 RepositoryStore.empty).2.log ++
          [StoreOp.Find [none, none, some "a", some "a"], StoreOp.All,
            StoreOp.Update ⟨n1, ["a"], f1⟩ [SchemaField.Endpoints]] ∧
      (RepositoryID o n2 ["a", "a"] f2
        (RepositoryID o n1 ["a", "a"] f1 RepositoryStore.empty).2).2.rows =
        [⟨n1, ["a"], f1⟩] := by
  intro o n1 n2 f1 f2
  have he : o.enum ["a"] = ["a"] := List.perm_singleton.mp (o.perm ["a"])
  have h1 : RepositoryID o n1 ["a", "a"] f1 RepositoryStore.empty =
      ((n1, none), ⟨[⟨n1, ["a", "a"], f1⟩], [],
        [StoreOp.Find [none, none, some "a", some "a"], StoreOp.All,
          StoreOp.Save ⟨n1, ["a", "a"], f1⟩]⟩) := rfl
  have hg : getUniqueEndpoints o ["a", "a"] ["a", "a"] = (["a"], true) := by
    have : getUniqueEndpoints o ["a", "a"] ["a", "a"] = (o.enum ["a"], true) := rfl
    rw [this, he]
  have h2 := RepositoryID_update o n2 ["a", "a"] f2
    ⟨[⟨n1, ["a", "a"], f1⟩], [],
        [StoreOp.Find [none, none, some "a", some "a"], StoreOp.All,
          StoreOp.Save ⟨n1, ["a", "a"], f1⟩]⟩ ⟨n1, ["a", "a"], f1⟩ []
    (by intro f hf; cases hf) rfl (by rw [hg])
  rw [h1]
  simp only at h2 ⊢
  rw [h2, hg]
  refine ⟨trivial, rfl, ?_⟩
  simp

/-- C7: `getUniqueEndpoints` is claimed to be idempotent. With `current = ["a"]` and
`incoming = ["b"]` the first call reports a change and returns a merged list `m`
holding `"a"` and `"b"`; called again on `m` and `["b"]` it counts one hit against
two keys and reports `changed = true` again, under every map order. -/
theorem getUniqueEndpoints_second_merge_still_changed :
    ∀ o : MapOrder,
      (getUniqueEndpoints o ["a"] ["b"]).2 = true ∧
      (getUniqueEndpoints o (getUniqueEndpoints o ["a"] ["b"]).1 ["b"]).2 = true := by
  intro o
  have h1 : getUniqueEndpoints o ["a"] ["b"] = (o.enum ["a", "b"], true) := rfl
  refine ⟨rfl, ?_⟩
  rw [h1, getUniqueEndpoints_changed_iff]
  have hp := o.perm ["a", "b"]
  have hf : (o.enum ["a", "b"]).toFinset = ["a", "b"].toFinset :=
    List.toFinset_eq_of_perm _ _ hp
  have hb : "b" ∈ o.enum ["a", "b"] := hp.mem_iff.mpr (by decide)
  rw [hf]
  have hh : hits (o.enum ["a", "b"]) ["b"] = 1 := by
    simp [hits, hb]
  rw [hh]
  decide

/-- C8: whenever `getUniqueEndpoints` reports `changed = true`, a string occurs in
the returned list exactly when it occurs in `current` or in `incoming`, and no
string occurs in the returned list twice. -/
theorem getUniqueEndpoints_changed_is_dedup_union (o : MapOrder) (re ne : List String)
    (h : (getUniqueEndpoints o re ne).2 = true) :
    (∀ x, x ∈ (getUniqueEndpoints o re ne).1 ↔ x ∈ re ∨ x ∈ ne) ∧
    (getUniqueEndpoints o re ne).1.Nodup :=
  ⟨mem_getUniqueEndpoints o re ne h, nodup_getUniqueEndpoints o re ne⟩

/-- Merging `["b","c","b"]` into `["a","b","a"]` reports a change; the result is the
duplicate-free union. -/
theorem getUniqueEndpoints_changed_is_dedup_union_witness :
    (getUniqueEndpoints MapOrder.reversed ["a", "b", "a"] ["b", "c", "b"]).2 = true ∧
    ((∀ x, x ∈ (getUniqueEndpoints MapOrder.reversed ["a", "b", "a"] ["b", "c", "b"]).1 ↔
        x ∈ ["a", "b", "a"] ∨ x ∈ ["b", "c", "b"]) ∧
      (getUniqueEndpoints MapOrder.reversed ["a", "b", "a"] ["b", "c", "b"]).1.Nodup) :=
  ⟨by decide, getUniqueEndpoints_changed_is_dedup_union _ _ _ (by decide)⟩

/-- C9: let the store hold a record `R` (between the rows `pre` and `post`) and let
no store operation fail. If `X` and `Y` are disjoint from each other, each shares a
string with the endpoints of `R`, and neither shares a string with any other row,
then `RepositoryID` on `X` followed by `RepositoryID` on `Y` returns the identifier
of `R` both times without error, and the store afterwards holds the same
identifiers, in the same order, as before: no record is created. -/
theorem RepositoryID_sequential_calls_share_record (o : MapOrder) (n1 n2 : UUID)
    (f1 f2 : Option Bool)
    (pre post : List Repository) (R : Repository) (X Y : List String)
    (faults : List (Option Error)) (log : List StoreOp)
    (hok : ∀ f ∈ faults, f = none)
    (_hXY : ∀ e ∈ X, e ∉ Y)
    (hXR : ∃ e ∈ X, e ∈ R.Endpoints)
    (hYR : ∃ e ∈ Y, e ∈ R.Endpoints)
    (hX : ∀ r ∈ pre ++ post, ∀ e ∈ X, e ∉ r.Endpoints)
    (hY : ∀ r ∈ pre ++ post, ∀ e ∈ Y, e ∉ r.Endpoints) :
    (RepositoryID o n1 X f1 ⟨pre ++ R :: post, faults, log⟩).1 = (R.ID, none) ∧
    (RepositoryID o n2 Y f2 (RepositoryID o n1 X f1 ⟨pre ++ R :: post, faults, log⟩).2).1 =
      (R.ID, none) ∧
    (RepositoryID o n2 Y f2
        (RepositoryID o n1 X f1 ⟨pre ++ R :: post, faults, log⟩).2).2.rows.map (fun r => r.ID) =
      (pre ++ R :: post).map (fun r => r.ID) := by
  have hno : ∀ (Z : List String), (∀ r ∈ pre ++ post, ∀ e ∈ Z, e ∉ r.Endpoints) →
      ∀ r ∈ pre ++ post, arrayOverlap (queryValues Z) r ≠ true := by
    intro Z hZ r hr hov
    obtain ⟨e, he, heZ⟩ := (arrayOverlap_queryValues Z r).mp hov
    exact hZ r hr e heZ he
  have hfX : (pre ++ R :: post).filter (arrayOverlap (queryValues X)) = [R] := by
    have hR : arrayOverlap (queryValues X) R = true := by
      obtain ⟨e, he, heR⟩ := hXR
      exact (arrayOverlap_queryValues X R).mpr ⟨e, heR, he⟩
    have hpre : pre.filter (arrayOverlap (queryValues X)) = [] := by
      rw [List.filter_eq_nil_iff]
      intro r hr
      exact hno X hX r (List.mem_append_left _ hr)
    have hpost : post.filter (arrayOverlap (queryValues X)) = [] := by
      rw [List.filter_eq_nil_iff]
      intro r hr
      exact hno X hX r (List.mem_append_right _ hr)
    rw [List.filter_append, List.filter_cons, hpre, hpost, if_pos hR]
    rfl
  obtain ⟨h1, h2, h3, h4, h5⟩ :=
    RepositoryID_match o n1 X f1 ⟨pre ++ R :: post, faults, log⟩ R [] hok hfX
  refine ⟨h1, ?_⟩
  generalize (RepositoryID o n1 X f1 ⟨pre ++ R :: post, faults, log⟩).2 = st1 at h2 h3 h4 h5 ⊢
  cases hfY : st1.rows.filter (arrayOverlap (queryValues Y)) with
  | nil =>
    exfalso
    obtain ⟨r, hr, _, hsub⟩ := h5
    obtain ⟨e, he, heR⟩ := hYR
    have : r ∈ st1.rows.filter (arrayOverlap (queryValues Y)) :=
      List.mem_filter.mpr ⟨hr, (arrayOverlap_queryValues Y r).mpr ⟨e, hsub e heR, he⟩⟩
    rw [hfY] at this
    exact List.not_mem_nil _ this
  | cons r0 rest =>
    have hmem : r0 ∈ st1.rows.filter (arrayOverlap (queryValues Y)) := by
      rw [hfY]; exact List.mem_cons_self _ _
    obtain ⟨hr0, hov⟩ := List.mem_filter.mp hmem
    have hid : r0.ID = R.ID := by
      rcases h4 r0 hr0 with h | h
      · exact h
      · simp only [List.mem_append, List.mem_cons] at h
        rcases h with h | h | h
        · exact absurd hov (hno Y hY r0 (List.mem_append_left _ h))
        · rw [h]
        · exact absurd hov (hno Y hY r0 (List.mem_append_right _ h))
    obtain ⟨g1, g2, _, _, _⟩ := RepositoryID_match o n2 Y f2 st1 r0 rest h3 hfY
    exact ⟨by rw [g1, hid], by rw [g2, h2]⟩

/-- Record `1` holds `a` and `b`; resolving `["a","c"]` and then `["b","d"]` returns
`1` twice and the store still holds the identifiers `1` and `2`. -/
theorem RepositoryID_sequential_calls_share_record_witness :
    (∀ f ∈ ([] : List (Option Error)), f = none) ∧
    (∀ e ∈ ["a", "c"], e ∉ ["b", "d"]) ∧
    (∃ e ∈ ["a", "c"], e ∈ (⟨1, ["a", "b"], none⟩ : Repository).Endpoints) ∧
    (∃ e ∈ ["b", "d"], e ∈ (⟨1, ["a", "b"], none⟩ : Repository).Endpoints) ∧
    (∀ r ∈ ([] : List Repository) ++ [⟨2, ["z"], none⟩],
      ∀ e ∈ ["a", "c"], e ∉ r.Endpoints) ∧
    (∀ r ∈ ([] : List Repository) ++ [⟨2, ["z"], none⟩],
      ∀ e ∈ ["b", "d"], e ∉ r.Endpoints) ∧
    ((RepositoryID MapOrder.insertion 8 ["a", "c"] none
        ⟨[] ++ ⟨1, ["a", "b"], none⟩ :: [⟨2, ["z"], none⟩], [], []⟩).1 =
        ((⟨1, ["a", "b"], none⟩ : Repository).ID, none) ∧
     (RepositoryID MapOrder.insertion 9 ["b", "d"] (some true)
        (RepositoryID MapOrder.insertion 8 ["a", "c"] none
          ⟨[] ++ ⟨1, ["a", "b"], none⟩ :: [⟨2, ["z"], none⟩], [], []⟩).2).1 =
        ((⟨1, ["a", "b"], none⟩ : Repository).ID, none) ∧
     (RepositoryID MapOrder.insertion 9 ["b", "d"] (some true)
        (RepositoryID MapOrder.insertion 8 ["a", "c"] none
          ⟨[] ++ ⟨1, ["a", "b"], none⟩ :: [⟨2, ["z"], none⟩], [], []⟩).2).2.rows.map
          (fun r => r.ID) =
        List.map (fun r : Repository => r.ID)
          ([] ++ (⟨1, ["a", "b"], none⟩ : Repository) :: [⟨2, ["z"], none⟩])) :=
  ⟨by decide, by decide, ⟨"a", by decide, by decide⟩, ⟨"b", by decide, by decide⟩,
    by decide, by decide,
    RepositoryID_sequential_calls_share_record MapOrder.insertion 8 9 none (some true)
      [] [⟨2, ["z"], none⟩] ⟨1, ["a", "b"], none⟩ ["a", "c"] ["b", "d"] [] []
      (by decide) (by decide) ⟨"a", by decide, by decide⟩ ⟨"b", by decide, by decide⟩
      (by decide) (by decide)⟩

/-- C10: on the path where the overlap query returns a record, whatever the `isFork`
argument, every row of the store has after the call the identifier and the fork flag
it had before; the call issues no `Save`, and every `Update` it issues names the
endpoints column and nothing else. -/
theorem RepositoryID_match_keeps_fork_flag (o : MapOrder) (newID : UUID)
    (endpoints : List String) (isFork : Option Bool) (st s1 s2 : RepositoryStore) (rs rest : List Repository)
    (r0 : Repository)
    (hFind : st.Find (queryValues endpoints) = (Except.ok rs, s1))
    (hAll : s1.All rs = (Except.ok (r0 :: rest), s2)) :
    (RepositoryID o newID endpoints isFork st).2.rows.map (fun r => (r.ID, r.IsFork)) =
      st.rows.map (fun r => (r.ID, r.IsFork)) ∧
    ∃ tail, (RepositoryID o newID endpoints isFork st).2.log = st.log ++ tail ∧
      (∀ r, StoreOp.Save r ∉ tail) ∧
      ∀ r fields, StoreOp.Update r fields ∈ tail → fields = [SchemaField.Endpoints] := by
  obtain ⟨_, h1⟩ := Find_ok _ _ _ _ hFind
  obtain ⟨_, h2⟩ := All_ok _ _ _ _ hAll
  simp only [RepositoryID, hFind, hAll]
  by_cases hu : (getUniqueEndpoints o r0.Endpoints endpoints).2 = true
  · rw [if_pos hu]
    have hp := Update_endpoints_proj s2
      { r0 with Endpoints := (getUniqueEndpoints o r0.Endpoints endpoints).1 }
    have he := Update_eq s2
      { r0 with Endpoints := (getUniqueEndpoints o r0.Endpoints endpoints).1 }
      [SchemaField.Endpoints]
    generalize s2.Update _ _ = p at hp he ⊢
    rcases p with ⟨e, s3⟩
    have hrows : s3.rows.map (fun r => (r.ID, r.IsFork)) =
        st.rows.map (fun r => (r.ID, r.IsFork)) := by
      rw [hp, h2, h1]
    have hlog : s3.log = st.log ++ [StoreOp.Find (queryValues endpoints), StoreOp.All,
        StoreOp.Update { r0 with Endpoints := (getUniqueEndpoints o r0.Endpoints endpoints).1 }
          [SchemaField.Endpoints]] := by
      have := congrArg (fun x => x.2.log) he
      simp only at this
      rw [this, h2, h1]
      simp
    cases e <;> refine ⟨hrows, _, hlog, ?_, ?_⟩ <;> simp
  · rw [if_neg hu]
    refine ⟨by rw [h2, h1], [StoreOp.Find (queryValues endpoints), StoreOp.All], ?_, ?_, ?_⟩
    · rw [h2, h1]; simp
    · simp
    · simp

/-- The matched record has fork flag `true`; resolving with `isFork = false` and a new
alias updates the endpoints and leaves the flag. -/
theorem RepositoryID_match_keeps_fork_flag_witness :
    (RepositoryStore.ofRows [⟨1, ["a"], some true⟩]).Find (queryValues ["a", "b"]) =
      (Except.ok [⟨1, ["a"], some true⟩],
        ⟨[⟨1, ["a"], some true⟩], [], [StoreOp.Find (queryValues ["a", "b"])]⟩) ∧
    (⟨[⟨1, ["a"], some true⟩], [], [StoreOp.Find (queryValues ["a", "b"])]⟩ :
        RepositoryStore).All [⟨1, ["a"], some true⟩] =
      (Except.ok [⟨1, ["a"], some true⟩],
        ⟨[⟨1, ["a"], some true⟩], [],
          [StoreOp.Find (queryValues ["a", "b"]), StoreOp.All]⟩) ∧
    ((RepositoryID MapOrder.insertion 9 ["a", "b"] (some false)
        (RepositoryStore.ofRows [⟨1, ["a"], some true⟩])).2.rows.map
          (fun r => (r.ID, r.IsFork)) =
        (RepositoryStore.ofRows [⟨1, ["a"], some true⟩]).rows.map
          (fun r => (r.ID, r.IsFork)) ∧
      ∃ tail, (RepositoryID MapOrder.insertion 9 ["a", "b"] (some false)
          (RepositoryStore.ofRows [⟨1, ["a"], some true⟩])).2.log =
          (RepositoryStore.ofRows [⟨1, ["a"], some true⟩]).log ++ tail ∧
        (∀ r, StoreOp.Save r ∉ tail) ∧
        ∀ r fields, StoreOp.Update r fields ∈ tail → fields = [SchemaField.Endpoints]) :=
  ⟨rfl, rfl,
    RepositoryID_match_keeps_fork_flag MapOrder.insertion 9 ["a", "b"] (some false)
      (RepositoryStore.ofRows [⟨1, ["a"], some true⟩])
      ⟨[⟨1, ["a"], some true⟩], [], [StoreOp.Find (queryValues ["a", "b"])]⟩
      ⟨[⟨1, ["a"], some true⟩], [],
        [StoreOp.Find (queryValues ["a", "b"]), StoreOp.All]⟩
      [⟨1, ["a"], some true⟩] [] ⟨1, ["a"], some true⟩ rfl rfl⟩

/-- C11: if `Find`, `All`, `Save` or `Update` fails with error `e`, `RepositoryID`
returns `uuid.Nil` together with that same `e`; the store after the call is the store
right after the failed operation, so the failed operation is the last one issued; the
rows are those before the call. In particular after a failed `Find` or `All` the log
holds no `Save` and no `Update`. -/
theorem RepositoryID_failure_propagates (o : MapOrder) (newID : UUID)
    (endpoints : List String) (isFork : Option Bool) (st : RepositoryStore) (e : Error) :
    (∀ s1, st.Find (queryValues endpoints) = (Except.error e, s1) →
      RepositoryID o newID endpoints isFork st = ((uuidNil, some e), s1) ∧
      s1.rows = st.rows ∧
      s1.log = st.log ++ [StoreOp.Find (queryValues endpoints)]) ∧
    (∀ rs s1 s2, st.Find (queryValues endpoints) = (Except.ok rs, s1) →
      s1.All rs = (Except.error e, s2) →
      RepositoryID o newID endpoints isFork st = ((uuidNil, some e), s2) ∧
      s2.rows = st.rows ∧
      s2.log = st.log ++ [StoreOp.Find (queryValues endpoints), StoreOp.All]) ∧
    (∀ rs s1 s2 s3, st.Find (queryValues endpoints) = (Except.ok rs, s1) →
      s1.All rs = (Except.ok [], s2) →
      s2.Save ⟨newID, endpoints, isFork⟩ = (some e, s3) →
      RepositoryID o newID endpoints isFork st = ((uuidNil, some e), s3) ∧
      s3.rows = st.rows ∧
      s3.log = st.log ++ [StoreOp.Find (queryValues endpoints), StoreOp.All,
        StoreOp.Save ⟨newID, endpoints, isFork⟩]) ∧
    (∀ rs s1 s2 s3 r0 rest, st.Find (queryValues endpoints) = (Except.ok rs, s1) →
      s1.All rs = (Except.ok (r0 :: rest), s2) →
      (getUniqueEndpoints o r0.Endpoints endpoints).2 = true →
      s2.Update { r0 with Endpoints := (getUniqueEndpoints o r0.Endpoints endpoints).1 }
        [SchemaField.Endpoints] = (some e, s3) →
      RepositoryID o newID endpoints isFork st = ((uuidNil, some e), s3) ∧
      s3.rows = st.rows ∧
      s3.log = st.log ++ [StoreOp.Find (queryValues endpoints), StoreOp.All,
        StoreOp.Update
          { r0 with Endpoints := (getUniqueEndpoints o r0.Endpoints endpoints).1 }
          [SchemaField.Endpoints]]) := by
  refine ⟨?_, ?_, ?_, ?_⟩
  · intro s1 hFind
    have h1 := Find_err _ _ _ _ hFind
    exact ⟨by simp only [RepositoryID, hFind], by rw [h1], by rw [h1]⟩
  · intro rs s1 s2 hFind hAll
    obtain ⟨_, h1⟩ := Find_ok _ _ _ _ hFind
    have h2 := All_err _ _ _ _ hAll
    exact ⟨by simp only [RepositoryID, hFind, hAll], by rw [h2, h1],
      by rw [h2, h1]; simp⟩
  · intro rs s1 s2 s3 hFind hAll hSave
    obtain ⟨_, h1⟩ := Find_ok _ _ _ _ hFind
    obtain ⟨_, h2⟩ := All_ok _ _ _ _ hAll
    have h3 := Save_err _ _ _ _ hSave
    exact ⟨by simp only [RepositoryID, hFind, hAll, hSave], by rw [h3, h2, h1],
      by rw [h3, h2, h1]; simp⟩
  · intro rs s1 s2 s3 r0 rest hFind hAll hu hUpd
    obtain ⟨_, h1⟩ := Find_ok _ _ _ _ hFind
    obtain ⟨_, h2⟩ := All_ok _ _ _ _ hAll
    have h3 := Update_err _ _ _ _ _ hUpd
    exact ⟨by simp only [RepositoryID, hFind, hAll, hu, if_true, hUpd], by rw [h3, h2, h1],
      by rw [h3, h2, h1]; simp⟩

/-- Each of the four operations fails once with the error `down`. -/
theorem RepositoryID_failure_propagates_witness :
    RepositoryID MapOrder.insertion 7 ["a"] none ⟨[], [some ⟨"down"⟩], []⟩ =
      ((uuidNil, some ⟨"down"⟩), ⟨[], [], [StoreOp.Find [none, some "a"]]⟩) ∧
    RepositoryID MapOrder.insertion 7 ["a"] none ⟨[], [none, some ⟨"down"⟩], []⟩ =
      ((uuidNil, some ⟨"down"⟩), ⟨[], [], [StoreOp.Find [none, some "a"], StoreOp.All]⟩) ∧
    RepositoryID MapOrder.insertion 7 ["a"] none ⟨[], [none, none, some ⟨"down"⟩], []⟩ =
      ((uuidNil, some ⟨"down"⟩),
        ⟨[], [], [StoreOp.Find [none, some "a"], StoreOp.All,
          StoreOp.Save ⟨7, ["a"], none⟩]⟩) ∧
    RepositoryID MapOrder.insertion 7 ["a", "b"] none
        ⟨[⟨1, ["a"], none⟩], [none, none, some ⟨"down"⟩], []⟩ =
      ((uuidNil, some ⟨"down"⟩),
        ⟨[⟨1, ["a"], none⟩], [],
          [StoreOp.Find [none, none, some "a", some "b"], StoreOp.All,
            StoreOp.Update ⟨1, ["a", "b"], none⟩ [SchemaField.Endpoints]]⟩) :=
  ⟨((RepositoryID_failure_propagates MapOrder.insertion 7 ["a"] none
        ⟨[], [some ⟨"down"⟩], []⟩ ⟨"down"⟩).1 _ rfl).1,
    ((RepositoryID_failure_propagates MapOrder.insertion 7 ["a"] none
        ⟨[], [none, some ⟨"down"⟩], []⟩ ⟨"down"⟩).2.1 [] _ _ rfl rfl).1,
    ((RepositoryID_failure_propagates MapOrder.insertion 7 ["a"] none
        ⟨[], [none, none, some ⟨"down"⟩], []⟩ ⟨"down"⟩).2.2.1 [] _ _ _ rfl rfl rfl).1,
    ((RepositoryID_failure_propagates MapOrder.insertion 7 ["a", "b"] none
        ⟨[⟨1, ["a"], none⟩], [none, none, some ⟨"down"⟩], []⟩ ⟨"down"⟩).2.2.2
        [⟨1, ["a"], none⟩] _ _ _ ⟨1, ["a"], none⟩ [] rfl rfl rfl rfl).1⟩

/-- C12: in a store whose identifiers are unique, for every record present before a
call of `RepositoryID` (successful or not) a record with the same identifier is
present after the call, and it holds every endpoint the record held before. -/
theorem RepositoryID_keeps_records_and_endpoints (o : MapOrder) (newID : UUID)
    (endpoints : List String) (isFork : Option Bool) (st : RepositoryStore)
    (huniq : (st.rows.map (fun r => r.ID)).Nodup) :
    ∀ r ∈ st.rows, ∃ r2 ∈ (RepositoryID o newID endpoints isFork st).2.rows,
      r2.ID = r.ID ∧ ∀ e ∈ r.Endpoints, e ∈ r2.Endpoints := by
  intro r hr
  rcases RepositoryID_rows o newID endpoints isFork st with h | ⟨_, h⟩ | ⟨r0, rest, hq, hu, h⟩
  · rw [h]; exact ⟨r, hr, rfl, fun e he => he⟩
  · rw [h]; exact ⟨r, List.mem_append_left _ hr, rfl, fun e he => he⟩
  · rw [h]
    have hr0 : r0 ∈ st.rows := by
      have : r0 ∈ st.rows.filter (arrayOverlap (queryValues endpoints)) := by
        rw [hq]; exact List.mem_cons_self _ _
      exact (List.mem_filter.mp this).1
    by_cases hid : r.ID = r0.ID
    · have hrr : r = r0 := List.inj_on_of_nodup_map huniq hr hr0 hid
      refine ⟨_, List.mem_map.mpr ⟨r, hr, rfl⟩, ?_, ?_⟩
      · rw [if_pos hid]
      · intro e he
        rw [if_pos hid]
        rw [hrr] at he
        exact (mem_getUniqueEndpoints o _ _ hu e).mpr (Or.inl he)
    · refine ⟨_, List.mem_map.mpr ⟨r, hr, rfl⟩, ?_, ?_⟩
      · rw [if_neg hid]
      · intro e he
        rw [if_neg hid]
        exact he

/-- Record `1` gains the alias `b`; both records keep their identifier and their
endpoints. -/
theorem RepositoryID_keeps_records_and_endpoints_witness :
    (List.map (fun r : Repository => r.ID) [⟨1, ["a"], none⟩, ⟨2, ["z"], none⟩]).Nodup ∧
    ∀ r ∈ (RepositoryStore.ofRows [⟨1, ["a"], none⟩, ⟨2, ["z"], none⟩]).rows,
      ∃ r2 ∈ (RepositoryID MapOrder.insertion 9 ["a", "b"] none
          (RepositoryStore.ofRows [⟨1, ["a"], none⟩, ⟨2, ["z"], none⟩])).2.rows,
        r2.ID = r.ID ∧ ∀ e ∈ r.Endpoints, e ∈ r2.Endpoints :=
  ⟨by decide, RepositoryID_keeps_records_and_endpoints MapOrder.insertion 9 ["a", "b"] none
    (RepositoryStore.ofRows [⟨1, ["a"], none⟩, ⟨2, ["z"], none⟩]) (by decide)⟩

/-- C13: a call of `RepositoryID` either leaves the number of records as it was, or
appends exactly the one record built from its arguments, and the latter only when
no record already in the store has an endpoint in common with the given list. -/
theorem RepositoryID_adds_at_most_one_record (o : MapOrder) (newID : UUID)
    (endpoints : List String) (isFork : Option Bool) (st : RepositoryStore) :
    (RepositoryID o newID endpoints isFork st).2.rows.length = st.rows.length ∨
    ((RepositoryID o newID endpoints isFork st).2.rows =
        st.rows ++ [⟨newID, endpoints, isFork⟩] ∧
      ∀ r ∈ st.rows, ∀ e ∈ endpoints, e ∉ r.Endpoints) := by
  rcases RepositoryID_rows o newID endpoints isFork st with h | ⟨hq, h⟩ | ⟨r0, rest, _, _, h⟩
  · left; rw [h]
  · right
    refine ⟨h, ?_⟩
    intro r hr e he her
    have : r ∈ st.rows.filter (arrayOverlap (queryValues endpoints)) :=
      List.mem_filter.mpr ⟨hr, (arrayOverlap_queryValues endpoints r).mpr ⟨e, her, he⟩⟩
    rw [hq] at this
    exact List.not_mem_nil _ this
  · left; rw [h, List.length_map]

/-- C14: the values passed to the array-overlap predicate are claimed to be exactly
the strings of `endpoints`. For `["a","b"]` the list passed is
`[nil, nil, "a", "b"]`: `make([]interface{}, len(endpoints))` creates
`len(endpoints)` nil values and the loop appends the endpoints after them, so the
list always has twice the length of `endpoints`. -/
theorem RepositoryID_query_has_leading_nil_values :
    queryValues ["a", "b"] = [none, none, some "a", some "b"] ∧
    (queryValues ["a", "b"]).length ≠ ["a", "b"].length ∧
    (∀ (o : MapOrder) (newID : UUID) (isFork : Option Bool),
      (RepositoryID o newID ["a", "b"] isFork RepositoryStore.empty).2.log.head? =
        some (StoreOp.Find [none, none, some "a", some "b"])) ∧
    ∀ endpoints : List String, (queryValues endpoints).length = 2 * endpoints.length := by
  refine ⟨rfl, by decide, fun _ _ _ => rfl, ?_⟩
  intro endpoints
  rw [queryValues_eq]
  simp
  omega

/-- C15: on an open `JobIter` whose source `s` has no job pending and is not done,
`Next` yields an error of kind `ErrWaitForJobs`, which is not `io.EOF`; on an open
`JobIter` whose source `t` is done, once the pending jobs have been handed out every
further call of `Next` yields `io.EOF`. -/
theorem JobIter_wait_then_exhausted (s t : JobSource)
    (hs : s.closed = false ∧ s.pending = [] ∧ s.done = false)
    (ht : t.closed = false ∧ t.done = true) :
    (s.Next).1 = (none, some IterError.WaitForJobs) ∧
    (s.Next).1.2 ≠ some IterError.EOF ∧
    ∀ n, t.pending.length ≤ n →
      ((JobSource.afterCalls n t).Next).1 = (none, some IterError.EOF) := by
  obtain ⟨hs1, hs2, hs3⟩ := hs
  have h1 : (s.Next).1 = (none, some IterError.WaitForJobs) := by
    simp [JobSource.Next, hs1, hs2, hs3]
  refine ⟨h1, by rw [h1]; decide, ?_⟩
  intro n
  obtain ⟨ht1, ht2⟩ := ht
  induction n generalizing t with
  | zero =>
    intro hlen
    have hp : t.pending = [] := List.length_eq_zero.mp (Nat.le_zero.mp hlen)
    simp [JobSource.afterCalls, JobSource.Next, ht1, ht2, hp]
  | succ n ih =>
    intro hlen
    rw [JobSource.afterCalls]
    cases hp : t.pending with
    | nil =>
      have hn : (t.Next).2 = t := by simp [JobSource.Next, ht1, ht2, hp]
      rw [hn]
      exact ih t ht1 ht2 (by rw [hp]; exact Nat.zero_le _)
    | cons j js =>
      have hn : (t.Next).2 = { t with pending := js } := by
        simp [JobSource.Next, ht1, hp]
      rw [hn]
      apply ih
      · exact ht1
      · exact ht2
      · rw [hp] at hlen
        simp only [List.length_cons] at hlen
        exact Nat.le_of_succ_le_succ hlen

/-- An empty open source that is not done yields `WaitForJobs`; a done source with one
job left yields `io.EOF` from the second call on. -/
theorem JobIter_wait_then_exhausted_witness :
    ((⟨[], false, false⟩ : JobSource).closed = false ∧
      (⟨[], false, false⟩ : JobSource).pending = [] ∧
      (⟨[], false, false⟩ : JobSource).done = false) ∧
    ((⟨[⟨5⟩], true, false⟩ : JobSource).closed = false ∧
      (⟨[⟨5⟩], true, false⟩ : JobSource).done = true) ∧
    (((⟨[], false, false⟩ : JobSource).Next).1 = (none, some IterError.WaitForJobs) ∧
      ((⟨[], false, false⟩ : JobSource).Next).1.2 ≠ some IterError.EOF ∧
      ∀ n, (⟨[⟨5⟩], true, false⟩ : JobSource).pending.length ≤ n →
        ((JobSource.afterCalls n ⟨[⟨5⟩], true, false⟩).Next).1 =
          (none, some IterError.EOF)) :=
  ⟨⟨rfl, rfl, rfl⟩, ⟨rfl, rfl⟩,
    JobIter_wait_then_exhausted ⟨[], false, false⟩ ⟨[⟨5⟩], true, false⟩
      ⟨rfl, rfl, rfl⟩ ⟨rfl, rfl⟩⟩

/-- C16: for a duplicate-free `incoming`, `getUniqueEndpoints(current, incoming)`
reports `changed = false` exactly when `current` and `incoming` hold the same
strings. -/
theorem getUniqueEndpoints_unchanged_iff_same_set (o : MapOrder) (re ne : List String) (hne : ne.Nodup) :
    (getUniqueEndpoints o re ne).2 = false ↔ ∀ x, x ∈ re ↔ x ∈ ne := by
  rw [getUniqueEndpoints_unchanged_iff, hits_of_nodup re ne hne]
  constructor
  · intro h
    have hsub : ne.toFinset ∩ re.toFinset ⊆ re.toFinset ∪ ne.toFinset := by
      intro x hx
      exact Finset.mem_union_left _ (Finset.mem_inter.mp hx).2
    have heq : ne.toFinset ∩ re.toFinset = re.toFinset ∪ ne.toFinset :=
      Finset.eq_of_subset_of_card_le hsub (le_of_eq h.symm)
    intro x
    constructor
    · intro hx
      have : x ∈ re.toFinset ∪ ne.toFinset := Finset.mem_union_left _ (List.mem_toFinset.mpr hx)
      rw [← heq] at this
      exact List.mem_toFinset.mp (Finset.mem_inter.mp this).1
    · intro hx
      have : x ∈ re.toFinset ∪ ne.toFinset := Finset.mem_union_right _ (List.mem_toFinset.mpr hx)
      rw [← heq] at this
      exact List.mem_toFinset.mp (Finset.mem_inter.mp this).2
  · intro h
    have : re.toFinset = ne.toFinset := by
      ext x
      simp [h x]
    rw [this]
    simp

/-- The lists `["a","b","a"]` and `["b","a"]` hold the same strings. -/
theorem getUniqueEndpoints_unchanged_iff_same_set_witness :
    ["b", "a"].Nodup ∧
    ((getUniqueEndpoints MapOrder.insertion ["a", "b", "a"] ["b", "a"]).2 = false ↔
      ∀ x, x ∈ ["a", "b", "a"] ↔ x ∈ ["b", "a"]) :=
  ⟨by decide, getUniqueEndpoints_unchanged_iff_same_set MapOrder.insertion ["a", "b", "a"] ["b", "a"] (by decide)⟩

/-- C17: a successful call is claimed to keep the records of the store pairwise
disjoint. In the store holding the records `(1, ["a"])` and `(2, ["b"])`, which share
no endpoint, the call with `["a","b"]` matches both, returns identifier `1` without
error and merges the list into record `1` alone; afterwards records `1` and `2` both
hold `"b"`. -/
theorem RepositoryID_bridging_list_breaks_disjointness :
    List.Pairwise (fun r s : Repository => ∀ e ∈ r.Endpoints, e ∉ s.Endpoints)
      (RepositoryStore.ofRows [⟨1, ["a"], none⟩, ⟨2, ["b"], none⟩]).rows ∧
    (RepositoryID MapOrder.insertion 9 ["a", "b"] none
      (RepositoryStore.ofRows [⟨1, ["a"], none⟩, ⟨2, ["b"], none⟩])).1 = (1, none) ∧
    (RepositoryID MapOrder.insertion 9 ["a", "b"] none
      (RepositoryStore.ofRows [⟨1, ["a"], none⟩, ⟨2, ["b"], none⟩])).2.rows =
        [⟨1, ["a", "b"], none⟩, ⟨2, ["b"], none⟩] ∧
    ¬ List.Pairwise (fun r s : Repository => ∀ e ∈ r.Endpoints, e ∉ s.Endpoints)
      (RepositoryID MapOrder.insertion 9 ["a", "b"] none
        (RepositoryStore.ofRows [⟨1, ["a"], none⟩, ⟨2, ["b"], none⟩])).2.rows := by
  refine ⟨by decide, by decide, by decide, ?_⟩
  have h : (RepositoryID MapOrder.insertion 9 ["a", "b"] none
      (RepositoryStore.ofRows [⟨1, ["a"], none⟩, ⟨2, ["b"], none⟩])).2.rows =
        [⟨1, ["a", "b"], none⟩, ⟨2, ["b"], none⟩] := by decide
  rw [h]
  decide

/-- C17, as amended: in a store whose identifiers are unique and whose records are
pairwise disjoint, if at most one record shares an endpoint with the given list,
then after a successful call of `RepositoryID` the records are pairwise disjoint. -/
theorem RepositoryID_single_match_preserves_disjointness (o : MapOrder) (newID : UUID)
    (endpoints : List String) (isFork : Option Bool) (st : RepositoryStore)
    (huniq : (st.rows.map (fun r => r.ID)).Nodup)
    (hdisj : List.Pairwise (fun r s : Repository => ∀ e ∈ r.Endpoints, e ∉ s.Endpoints)
      st.rows)
    (hone : (st.rows.filter
      (fun r => decide (∃ e ∈ r.Endpoints, e ∈ endpoints))).length ≤ 1)
    (_hok : (RepositoryID o newID endpoints isFork st).1.2 = none) :
    List.Pairwise (fun r s : Repository => ∀ e ∈ r.Endpoints, e ∉ s.Endpoints)
      (RepositoryID o newID endpoints isFork st).2.rows := by
  have hfilt : st.rows.filter (fun r => decide (∃ e ∈ r.Endpoints, e ∈ endpoints)) =
      st.rows.filter (arrayOverlap (queryValues endpoints)) := by
    apply List.filter_congr
    intro r _
    by_cases hov : arrayOverlap (queryValues endpoints) r = true
    · rw [hov]
      exact decide_eq_true ((arrayOverlap_queryValues endpoints r).mp hov)
    · have hov2 : arrayOverlap (queryValues endpoints) r = false := by simpa using hov
      rw [hov2]
      exact decide_eq_false (fun h => hov ((arrayOverlap_queryValues endpoints r).mpr h))
  rw [hfilt] at hone
  rcases RepositoryID_rows o newID endpoints isFork st with h | ⟨hq, h⟩ | ⟨r0, rest, hq, hu, h⟩
  · rw [h]; exact hdisj
  · rw [h, List.pairwise_append]
    refine ⟨hdisj, List.pairwise_singleton _ _, ?_⟩
    intro a ha b hb e hea heb
    rw [List.mem_singleton] at hb
    subst hb
    have : a ∈ st.rows.filter (arrayOverlap (queryValues endpoints)) :=
      List.mem_filter.mpr ⟨ha, (arrayOverlap_queryValues endpoints a).mpr ⟨e, hea, heb⟩⟩
    rw [hq] at this
    exact List.not_mem_nil _ this
  · rw [h, List.pairwise_map]
    have hrest : rest = [] := by
      rw [hq] at hone
      simp only [List.length_cons] at hone
      exact List.length_eq_zero.mp (by omega)
    have hr0 : r0 ∈ st.rows := by
      have : r0 ∈ st.rows.filter (arrayOverlap (queryValues endpoints)) := by
        rw [hq]; exact List.mem_cons_self _ _
      exact (List.mem_filter.mp this).1
    have hother : ∀ b ∈ st.rows, b.ID ≠ r0.ID → ∀ e ∈ b.Endpoints, e ∉ endpoints := by
      intro b hb hbid e heb heX
      have : b ∈ st.rows.filter (arrayOverlap (queryValues endpoints)) :=
        List.mem_filter.mpr ⟨hb, (arrayOverlap_queryValues endpoints b).mpr ⟨e, heb, heX⟩⟩
      rw [hq, hrest, List.mem_singleton] at this
      exact hbid (by rw [this])
    have hids : List.Pairwise (fun a b : Repository => a.ID ≠ b.ID) st.rows := by
      have := huniq
      rw [List.Nodup, List.pairwise_map] at this
      exact this
    refine List.Pairwise.imp_of_mem ?_ (hdisj.and hids)
    intro a b ha hb hab
    obtain ⟨hd, hne⟩ := hab
    by_cases ha0 : a.ID = r0.ID
    · have haa : a = r0 := List.inj_on_of_nodup_map huniq ha hr0 ha0
      have hb0 : b.ID ≠ r0.ID := fun hb0 => hne (by rw [ha0, hb0])
      rw [if_pos ha0, if_neg hb0]
      intro e he heb
      rcases (mem_getUniqueEndpoints o _ _ hu e).mp he with h1 | h1
      · rw [← haa] at h1
        exact hd e h1 heb
      · exact hother b hb hb0 e heb h1
    · rw [if_neg ha0]
      by_cases hb0 : b.ID = r0.ID
      · have hbb : b = r0 := List.inj_on_of_nodup_map huniq hb hr0 hb0
        rw [if_pos hb0]
        intro e he heb
        rcases (mem_getUniqueEndpoints o _ _ hu e).mp heb with h1 | h1
        · rw [← hbb] at h1
          exact hd e he h1
        · exact hother a ha ha0 e he h1
      · rw [if_neg hb0]
        exact hd

/-- Only record `1` shares an endpoint with `["a","b"]`; after the call the two
records are still disjoint. -/
theorem RepositoryID_single_match_preserves_disjointness_witness :
    (List.map (fun r : Repository => r.ID) [⟨1, ["a"], none⟩, ⟨2, ["z"], none⟩]).Nodup ∧
    List.Pairwise (fun r s : Repository => ∀ e ∈ r.Endpoints, e ∉ s.Endpoints)
      [⟨1, ["a"], none⟩, ⟨2, ["z"], none⟩] ∧
    (List.filter (fun r : Repository => decide (∃ e ∈ r.Endpoints, e ∈ ["a", "b"]))
      [⟨1, ["a"], none⟩, ⟨2, ["z"], none⟩]).length ≤ 1 ∧
    (RepositoryID MapOrder.insertion 9 ["a", "b"] none
      (RepositoryStore.ofRows [⟨1, ["a"], none⟩, ⟨2, ["z"], none⟩])).1.2 = none ∧
    List.Pairwise (fun r s : Repository => ∀ e ∈ r.Endpoints, e ∉ s.Endpoints)
      (RepositoryID MapOrder.insertion 9 ["a", "b"] none
        (RepositoryStore.ofRows [⟨1, ["a"], none⟩, ⟨2, ["z"], none⟩])).2.rows :=
  ⟨by decide, by decide, by decide, by decide,
    RepositoryID_single_match_preserves_disjointness MapOrder.insertion 9 ["a", "b"] none
      (RepositoryStore.ofRows [⟨1, ["a"], none⟩, ⟨2, ["z"], none⟩])
      (by decide) (by decide) (by decide) (by decide)⟩

/-- C18: for the empty endpoint list the query values are empty and match no record;
when no store operation fails, `RepositoryID` returns the identifier drawn for the
new record and no error, and appends a record with that identifier and no endpoint;
a second such call appends one more record, carrying the identifier drawn for it. -/
theorem RepositoryID_empty_list_creates_record (o : MapOrder) (n1 n2 : UUID) (f1 f2 : Option Bool) (st : RepositoryStore)
    (hok : ∀ f ∈ st.faults, f = none) :
    st.rows.filter (arrayOverlap (queryValues [])) = [] ∧
    (RepositoryID o n1 [] f1 st).1 = (n1, none) ∧
    (RepositoryID o n1 [] f1 st).2.rows = st.rows ++ [⟨n1, [], f1⟩] ∧
    (RepositoryID o n2 [] f2 (RepositoryID o n1 [] f1 st).2).1 = (n2, none) ∧
    (RepositoryID o n2 [] f2 (RepositoryID o n1 [] f1 st).2).2.rows =
      st.rows ++ [⟨n1, [], f1⟩, ⟨n2, [], f2⟩] := by
  have hnone : ∀ rows : List Repository,
      rows.filter (arrayOverlap (queryValues [])) = [] := by
    intro rows
    rw [List.filter_eq_nil_iff]
    intro r _
    simp [arrayOverlap, queryValues]
  have h1 := RepositoryID_create o n1 [] f1 st hok (hnone _)
  rw [h1]
  have h2 := RepositoryID_create o n2 [] f2
    ⟨st.rows ++ [⟨n1, [], f1⟩], st.faults.tail.tail.tail,
      st.log ++ [StoreOp.Find (queryValues []), StoreOp.All, StoreOp.Save ⟨n1, [], f1⟩]⟩
    (tail_all_none _ (tail_all_none _ (tail_all_none _ hok))) (hnone _)
  simp only at h2 ⊢
  rw [h2]
  refine ⟨hnone _, ?_, ?_, ?_, ?_⟩ <;> simp

/-- Two calls with the empty list on a store holding one record leave three records. -/
theorem RepositoryID_empty_list_creates_record_witness :
    (∀ f ∈ (RepositoryStore.ofRows [⟨1, ["a"], none⟩]).faults, f = none) ∧
    ((RepositoryStore.ofRows [⟨1, ["a"], none⟩]).rows.filter
        (arrayOverlap (queryValues [])) = [] ∧
      (RepositoryID MapOrder.insertion 7 [] none
        (RepositoryStore.ofRows [⟨1, ["a"], none⟩])).1 = (7, none) ∧
      (RepositoryID MapOrder.insertion 7 [] none
        (RepositoryStore.ofRows [⟨1, ["a"], none⟩])).2.rows =
        (RepositoryStore.ofRows [⟨1, ["a"], none⟩]).rows ++ [⟨7, [], none⟩] ∧
      (RepositoryID MapOrder.insertion 8 [] (some true)
        (RepositoryID MapOrder.insertion 7 [] none
          (RepositoryStore.ofRows [⟨1, ["a"], none⟩])).2).1 = (8, none) ∧
      (RepositoryID MapOrder.insertion 8 [] (some true)
        (RepositoryID MapOrder.insertion 7 [] none
          (RepositoryStore.ofRows [⟨1, ["a"], none⟩])).2).2.rows =
        (RepositoryStore.ofRows [⟨1, ["a"], none⟩]).rows ++
          [⟨7, [], none⟩, ⟨8, [], some true⟩]) :=
  ⟨by decide,
    RepositoryID_empty_list_creates_record MapOrder.insertion 7 8 none (some true)
      (RepositoryStore.ofRows [⟨1, ["a"], none⟩]) (by decide)⟩

end Borges
